import Mathlib

/-!
Shallow embedding of the mastery-inference pipeline of the `ai-service`
repository (`app/master_score/main.py` and `app/master_score/inference.py`),
together with theorems settling the frozen claims about it.

Modelling conventions:
* Timestamps and all continuous features are rationals (`ℚ`); the Python code
  computes them in float64, and every claim under scrutiny is about exact
  arithmetic structure (formulas, zero denominators, clipping bounds), not
  float rounding.
* `np.log1p` is threaded through as an explicit function parameter
  `log1p : ℚ → ℚ`; the claims never need its numeric values, only (for the
  denominator claims) the facts `log1p 0 = 0` and strict monotonicity, which
  hold of the real x ↦ ln(1+x).
* Division is rational division, total with `x / 0 = 0` (pandas yields
  inf/NaN there; the claims discuss whether denominators are zero, which is
  representation independent).
* The interaction's `correct` field is a boolean, as in the documented input
  contract of `get_mastery_scores`; `astype(int)` is `correctInt`.
* The trained model and its artifact skill vocabulary are external
  collaborators: the scorer and the reverse skill map are parameters.
-/

/-- One raw interaction record, the input unit of `get_mastery_scores`
(`main.py`): a skill name, a correctness flag, and start/end unix times. -/
structure Interaction where
  skill : String
  correct : Bool
  startTime : ℚ
  endTime : ℚ
deriving DecidableEq, Repr, Inhabited

/-- Coercion of the boolean correctness flag to the integer 0/1 column,
mirroring `df['correct'].astype(int)`. -/
def correctInt (b : Bool) : ℤ := if b then 1 else 0

/-- Pandas `Series.clip(lo, hi)`: clamp into the closed interval. -/
def clipQ (lo hi x : ℚ) : ℚ := min hi (max lo x)

/-- The sort relation used by both `df.sort_values('startTime')` (`main.py`
line 130) and `df.sort_values(by='start_time')` (`inference.py` line 277):
compare rows by start time only. -/
def startLE (a b : Interaction) : Prop := a.startTime ≤ b.startTime

instance : DecidableRel startLE := fun a b => inferInstanceAs (Decidable (a.startTime ≤ b.startTime))

instance : IsTotal Interaction startLE := ⟨fun a b => le_total a.startTime b.startTime⟩

instance : IsTrans Interaction startLE := ⟨fun _ _ _ h1 h2 => le_trans h1 h2⟩

/-- Executable representative of `df.sort_values('startTime')` (`main.py`
line 130) and `df.sort_values(by='start_time')` (`inference.py` line 277).
Pandas' default `kind='quicksort'` guarantees only a permutation of the
rows sorted by the key; the order of tied keys is unspecified (the default
sort is not stable in general, though numpy falls back to a stable
insertion sort below its small-array cutoff). `insertionSort` is one
routine satisfying that contract, used here to keep the table computable;
any theorem whose truth could depend on the tie order quantifies over
every routine satisfying the contract (`IsSortValues`) instead of relying
on this representative. -/
def sortByStartTime (l : List Interaction) : List Interaction :=
  List.insertionSort startLE l

/-- Model of `preprocess_interaction_data` (`main.py` lines 119-133): type
coercions are identities in the typed embedding, what remains is the
chronological re-sort by start time. -/
def preprocess_interaction_data (data : List Interaction) : List Interaction :=
  sortByStartTime data

/-- The `time_taken` column: `(end_time - start_time).clip(0, 300)`
(`inference.py` lines 281-282). -/
def timeTaken (x : Interaction) : ℚ := clipQ 0 300 (x.endTime - x.startTime)

/-- Maximum of a rational list, `Series.max()` on a nonempty column
(0 on the empty list, which the pipeline never feeds it). -/
def qListMax : List ℚ → ℚ
  | [] => 0
  | x :: xs => xs.foldl max x

/-- Maximum of an integer list, for `df['attempt_count'].max()`. -/
def zListMax : List ℤ → ℤ
  | [] => 0
  | x :: xs => xs.foldl max x

/-- The scalar `max_log_time = df['time_taken_log'].max()`
(`inference.py` line 284), over the sorted rows. -/
def maxLogTime (log1p : ℚ → ℚ) (l : List Interaction) : ℚ :=
  qListMax (l.map (fun x => log1p (timeTaken x)))

/-- The `time_since_last` column at row `i`: first difference of sorted
start times with `fillna(0)`, clipped to `[0, 86400]`
(`inference.py` lines 288-289). -/
def timeSinceLast (l : List Interaction) (i : ℕ) : ℚ :=
  if i = 0 then 0
  else clipQ 0 86400 ((l.getD i default).startTime - (l.getD (i - 1) default).startTime)

/-- First-appearance deduplication, the order semantics of
`df['skill_name'].unique()` (`inference.py` line 293). -/
def uniqueFirst (acc : List String) : List String → List String
  | [] => acc
  | s :: rest => if s ∈ acc then uniqueFirst acc rest else uniqueFirst (acc ++ [s]) rest

/-- The observed skill vocabulary of the request, in first-appearance order
over the sorted rows. -/
def skillsOf (l : List Interaction) : List String :=
  uniqueFirst [] (l.map (·.skill))

/-- The dense skill id: position in the first-appearance list plus one
(`skill_map = {skill: i + 1 ...}`, `inference.py` line 294). -/
def skillIdOf (skills : List String) (s : String) : ℤ :=
  (List.indexOf s skills : ℤ) + 1

/-- Skill id of a row of the sorted table. -/
def skillIdRow (l : List Interaction) (x : Interaction) : ℤ :=
  skillIdOf (skillsOf l) x.skill

/-- The per-request skill map `skill_name -> skill_id` returned by
`preprocess_data` alongside the table. -/
def requestSkillMap (l : List Interaction) : List (String × ℤ) :=
  (skillsOf l).map (fun s => (s, skillIdOf (skillsOf l) s))

/-- The rows of one `groupby('skill_id')` group (`inference.py` line 300). -/
def skillGroup (l : List Interaction) (sid : ℤ) : List Interaction :=
  l.filter (fun x => skillIdRow l x = sid)

/-- The smoothed difficulty of one skill-id group:
`(difficulty * total_attempts + 0.5 * 10) / (total_attempts + 10)` with
`difficulty = 1 - mean(correct)` over the group
(`inference.py` lines 300-308). -/
def smoothedDifficulty (l : List Interaction) (sid : ℤ) : ℚ :=
  let grp := skillGroup l sid
  let n : ℚ := grp.length
  let avg : ℚ := (grp.map (fun x => (correctInt x.correct : ℚ))).sum / n
  ((1 - avg) * n + 0.5 * 10) / (n + 10)

/-- The `attempt_count` column at row `i`:
`groupby('skill_id').cumcount() + 1`, i.e. the number of rows up to and
including `i` sharing row `i`'s skill id (`inference.py` line 314). -/
def attemptCount (l : List Interaction) (i : ℕ) : ℤ :=
  ((l.take (i + 1)).filter
    (fun x => skillIdRow l x = skillIdRow l (l.getD i default))).length

/-- The scalar `df['attempt_count'].max()` (`inference.py` line 315). -/
def maxAttemptCount (l : List Interaction) : ℤ :=
  zListMax ((List.range l.length).map (attemptCount l))

/-- One row of the enhanced feature table built by `preprocess_data`
(`inference.py` lines 267-329). -/
structure FeatureRow where
  skill_name : String
  start_time : ℚ
  correct : ℤ
  end_time : ℚ
  time_taken : ℚ
  time_taken_log : ℚ
  time_taken_scaled : ℚ
  time_since_last : ℚ
  time_since_last_scaled : ℚ
  skill_id : ℤ
  skill_difficulty : ℚ
  attempt_count : ℤ
  attempt_count_scaled : ℚ
  student_avg_correctness : ℚ
  interaction_feature : ℤ
deriving DecidableEq, Repr, Inhabited

/-- Row `i` of the feature table over the already-sorted interaction list
`l`, mirroring the column formulas of `preprocess_data`
(`inference.py` lines 280-328). -/
def mkFeatureRow (log1p : ℚ → ℚ) (l : List Interaction) (i : ℕ) : FeatureRow :=
  let x := l.getD i default
  let numSkills : ℤ := (skillsOf l).length
  let sid := skillIdRow l x
  let c := correctInt x.correct
  { skill_name := x.skill
    start_time := x.startTime
    correct := c
    end_time := x.endTime
    time_taken := timeTaken x
    time_taken_log := log1p (timeTaken x)
    time_taken_scaled := log1p (timeTaken x) / maxLogTime log1p l
    time_since_last := timeSinceLast l i
    time_since_last_scaled := log1p (timeSinceLast l i) / log1p 86400
    skill_id := sid
    skill_difficulty := smoothedDifficulty l sid
    attempt_count := attemptCount l i
    attempt_count_scaled := log1p ((attemptCount l i : ℚ)) / log1p ((maxAttemptCount l : ℚ))
    student_avg_correctness :=
      (((l.take (i + 1)).map (fun y => (correctInt y.correct : ℚ))).sum) / ((i : ℚ) + 1)
    interaction_feature := sid + (1 - c) * numSkills }

/-- Model of `preprocess_data` (`inference.py` lines 248-329): all input
fields are present and typed in the embedding (so `dropna` drops nothing),
the rows are re-sorted by `start_time`, and every feature column is
computed over the sorted order. Returns the feature table; the skill map,
skill count and difficulty dictionary it also returns are recovered by
`requestSkillMap`, `skillsOf` and `smoothedDifficulty`. -/
def preprocess_data (log1p : ℚ → ℚ) (data : List Interaction) : List FeatureRow :=
  let sorted := sortByStartTime data
  (List.range sorted.length).map (mkFeatureRow log1p sorted)

/-- The full feature-engineering stage as invoked by the pipeline:
`preprocess_interaction_data` (`main.py`) followed by `preprocess_data`
(`inference.py`); the spec calls this composite `build_features`. -/
def build_features (log1p : ℚ → ℚ) (data : List Interaction) : List FeatureRow :=
  preprocess_data log1p (preprocess_interaction_data data)

/-- The contract pandas documents for `sort_values` on a single key: the
result is a permutation of the input, sorted by `startTime`. Nothing is
promised about the relative order of tied keys. -/
def IsSortValues (sortf : List Interaction → List Interaction) : Prop :=
  ∀ l, List.Perm (sortf l) l ∧ List.Sorted startLE (sortf l)

/-- The feature-engineering stage with the sorting routine left abstract:
`preprocess_interaction_data` sorts once and `preprocess_data` re-sorts, so
the table is computed over `sortf (sortf data)`. `build_features` is the
instance at the executable representative `sortByStartTime`. -/
def build_features_with (sortf : List Interaction → List Interaction)
    (log1p : ℚ → ℚ) (data : List Interaction) : List FeatureRow :=
  (List.range (sortf (sortf data)).length).map (mkFeatureRow log1p (sortf (sortf data)))

/-- The stacked continuous feature vector of a row (`inference.py`
lines 353-359). -/
def contFeatures (r : FeatureRow) : List ℚ :=
  [r.time_taken_scaled, r.time_since_last_scaled, r.skill_difficulty,
   r.attempt_count_scaled, r.student_avg_correctness]

/-- The combined target of a row: `[skill_id - 1, correct]`
(`inference.py` lines 361-363). -/
def targetOf (r : FeatureRow) : ℤ × ℤ := (r.skill_id - 1, r.correct)

/-- Python `range(0, n, step)` for positive `step`. -/
def strideStarts (n step : ℕ) : List ℕ :=
  (List.range ((n + step - 1) / step)).map (· * step)

/-- The three unpadded chunk lists accumulated by the packing loop. -/
structure RawChunks where
  Xcat : List (List ℤ)
  Xcont : List (List (List ℚ))
  y : List (List (ℤ × ℤ))
deriving DecidableEq, Repr

/-- The chunking loop of `create_sequences` (`inference.py` lines 366-371):
for each `i in range(0, len, max_seq_len)`, if the chunk `[i, i+max_seq_len)`
has more than one row, append the input slices `[i, i+max_seq_len-1)` and the
shifted target slice `[i+1, i+max_seq_len)`. -/
def sliceChunks (table : List FeatureRow) (max_seq_len : ℕ) : RawChunks :=
  let starts := (strideStarts table.length max_seq_len).filter
    (fun i => 1 < ((table.drop i).take max_seq_len).length)
  { Xcat := starts.map (fun i =>
      ((table.drop i).take (max_seq_len - 1)).map (·.interaction_feature))
    Xcont := starts.map (fun i =>
      ((table.drop i).take (max_seq_len - 1)).map contFeatures)
    y := starts.map (fun i =>
      ((table.drop (i + 1)).take (max_seq_len - 1)).map targetOf) }

/-- Keras `pad_sequences(maxlen, padding='post', truncating='pre', value=v)`
on one sequence: right-pad with `v` to length `len`, keeping the last `len`
entries if the sequence is longer. -/
def padPost (len : ℕ) (v : α) (l : List α) : List α :=
  if len ≤ l.length then l.drop (l.length - len)
  else l ++ List.replicate (len - l.length) v

/-- The packed output of `create_sequences`: padded categorical inputs,
padded continuous inputs, padded targets, and `max_len`. -/
structure Packed where
  Xcat : List (List ℤ)
  Xcont : List (List (List ℚ))
  y : List (List (ℤ × ℤ))
  maxLen : ℕ
deriving DecidableEq, Repr

/-- Model of `create_sequences` (`inference.py` lines 331-384): fail when
the table has at most one row, otherwise chunk and pad — categorical and
continuous inputs with zeros, targets with the `-1` sentinel, all to length
`max_seq_len - 1`. -/
def create_sequences (table : List FeatureRow) (max_seq_len : ℕ := 100) :
    Except String Packed :=
  if table.length ≤ 1 then
    Except.error "Need at least 2 interactions to create sequences"
  else
    let c := sliceChunks table max_seq_len
    let maxLen := max_seq_len - 1
    Except.ok
      { Xcat := c.Xcat.map (padPost maxLen 0)
        Xcont := c.Xcont.map (padPost maxLen (List.replicate 5 0))
        y := c.y.map (padPost maxLen (-1, -1))
        maxLen := maxLen }

/-- Python-dict assignment `d[k] = v` on an insertion-ordered association
list: update in place when the key exists, append otherwise. -/
def dictInsert (d : List (String × ℚ)) (k : String) (v : ℚ) : List (String × ℚ) :=
  if d.any (fun p => p.1 = k) then
    d.map (fun p => if p.1 = k then (k, v) else p)
  else d ++ [(k, v)]

/-- Association-list lookup, Python `d.get(k)`. -/
def lookupName (d : List (String × ℚ)) (k : String) : Option ℚ :=
  (d.find? (fun p => p.1 = k)).map (·.2)

/-- Decode-side skill naming (`inference.py` line 420):
`reverse_skill_map.get(j + 1, f"Skill_{j+1}")` against the artifact
vocabulary, modelled as an explicit inverse map. -/
def skillNameOf (revMap : List (ℤ × String)) (j : ℕ) : String :=
  match revMap.find? (fun p => p.1 = (j : ℤ) + 1) with
  | some p => p.2
  | none => "Skill_" ++ toString (j + 1)

/-- One pass of the decode loop body over a single sequence's output
(`inference.py` lines 418-421): enumerate the probability vector of the
last time step and write each skill's value into the dictionary. -/
def decodeStep (revMap : List (ℤ × String)) (d : List (String × ℚ))
    (seqOut : List (List ℚ)) : List (String × ℚ) :=
  (seqOut.getLastD []).enum.foldl
    (fun acc jk => dictInsert acc (skillNameOf revMap jk.1) jk.2) d

/-- The decode loop of `infer_knowledge` (`inference.py` lines 414-423):
fold over every produced sequence in order, later writes overwriting
earlier ones. -/
def infer_decode (revMap : List (ℤ × String))
    (result : List (List (List ℚ))) : List (String × ℚ) :=
  result.foldl (decodeStep revMap) []

/-- Model of `validate_interaction_data` (`main.py` lines 63-103): the type
and field-presence checks are discharged statically by the typed embedding;
what remains observable is the minimum-size check and the
`endTime >= startTime` check. -/
def validate_interaction_data (data : List Interaction) : Except String Unit :=
  if data.length < 2 then
    Except.error "At least 2 interactions are required for inference"
  else
    match data.find? (fun x => x.endTime < x.startTime) with
    | some _ => Except.error "endTime must be greater or equal to startTime"
    | none => Except.ok ()

/-- The defensive output clip of `get_mastery_scores`
(`main.py` line 186): `max(0.0, min(1.0, score))`. -/
def clipScore (x : ℚ) : ℚ := max 0 (min 1 x)

/-- The validation loop over the decoded predictions
(`main.py` lines 183-187). -/
def validatePredictions (preds : List (String × ℚ)) : List (String × ℚ) :=
  preds.map (fun p => (p.1, clipScore p.2))

/-- Model of the full pipeline `get_mastery_scores` (`main.py` lines
140-194) inlining `infer_knowledge` (`inference.py` lines 386-423):
validate, re-sort, feature-engineer, pack, score with the external model
(a parameter, per the spec's model-call boundary), decode against the
artifact vocabulary (a parameter; the artifact file is outside the
provided sources), and clip. -/
def get_mastery_scores (log1p : ℚ → ℚ)
    (model : List (List ℤ) → List (List (List ℚ)) → List (List (List ℚ)))
    (revMap : List (ℤ × String)) (data : List Interaction) :
    Except String (List (String × ℚ)) := do
  let _ ← validate_interaction_data data
  let df := preprocess_interaction_data data
  let table := preprocess_data log1p df
  let packed ← create_sequences table 100
  let result := model packed.Xcat packed.Xcont
  let preds := infer_decode revMap result
  Except.ok (validatePredictions preds)

/-- Model of `create_sample_data` (`main.py` lines 296-318), parameterized
by the run-time `current_time`. -/
def create_sample_data (T : ℚ) : List Interaction :=
  [⟨"addition", true, T - 1000, T - 940⟩,
   ⟨"subtraction", false, T - 900, T - 830⟩,
   ⟨"addition", true, T - 800, T - 750⟩,
   ⟨"multiplication", true, T - 700, T - 620⟩,
   ⟨"division", false, T - 600, T - 540⟩,
   ⟨"multiplication", true, T - 500, T - 430⟩,
   ⟨"addition", true, T - 400, T - 350⟩,
   ⟨"subtraction", true, T - 300, T - 240⟩]

/-- Simple concrete feature row used to build explicit feature tables in
counterexamples and witnesses. -/
def simpleRow (i : ℕ) : FeatureRow :=
  { skill_name := "s", start_time := (i : ℚ), correct := 1, end_time := (i : ℚ),
    time_taken := 0, time_taken_log := 0, time_taken_scaled := 0,
    time_since_last := 0, time_since_last_scaled := 0, skill_id := 1,
    skill_difficulty := 1/2, attempt_count := 1, attempt_count_scaled := 0,
    student_avg_correctness := 1, interaction_feature := 1 }

/-- An explicit feature table with exactly 101 rows. -/
def table101 : List FeatureRow := (List.range 101).map simpleRow

/-- Two interactions with tied start times, in one input order. -/
def tiedPairA : List Interaction := [⟨"a", true, 0, 1⟩, ⟨"b", true, 0, 1⟩]

/-- The same two tied interactions, in the swapped input order. -/
def tiedPairB : List Interaction := [⟨"b", true, 0, 1⟩, ⟨"a", true, 0, 1⟩]

/-- Two valid interactions whose start and end times coincide, so every
clipped duration is zero. -/
def zeroDurationData : List Interaction := [⟨"a", true, 5, 5⟩, ⟨"b", false, 5, 5⟩]

/-- A request in which the skill "hard" is observed exactly once,
incorrectly. -/
def oneMissData : List Interaction := [⟨"hard", false, 0, 10⟩, ⟨"easy", true, 20, 30⟩]

/-- The first row of the `oneMissData` feature table. -/
def oneMissRow : FeatureRow := (build_features id oneMissData).headD default

/-! ## Helper lemmas -/

theorem padPost_length_eq {α : Type} (v : α) (l : List α) (len : ℕ) (h : l.length = len) :
    padPost len v l = l := by
  simp [padPost, h]

theorem padPost_eq_append {α : Type} (v : α) (l : List α) (len : ℕ) (h : l.length ≤ len) :
    padPost len v l = l ++ List.replicate (len - l.length) v := by
  rcases Nat.lt_or_ge l.length len with hlt | hge
  · simp [padPost, Nat.not_le.mpr hlt]
  · have : l.length = len := le_antisymm h hge
    simp [padPost, this]

theorem strideStarts_100 : strideStarts 100 100 = [0] := rfl

theorem strideStarts_101 : strideStarts 101 100 = [0, 100] := rfl

/-- C1 (amended): the packer chunks the table at stride `max_seq_len = 100`
(not 99): each chunk of up to 100 rows contributes the input slice
`[i, i+99)` and the shifted target slice `[i+1, i+100)`, and chunks with at
most one row are silently skipped.  A table of exactly 100 rows yields
exactly one packed sequence whose target has length 99 with no padding; a
table of exactly 101 rows also yields exactly one packed sequence — the
single-row tail chunk is skipped, not emitted as a second padded
sequence. -/
theorem create_sequences_stride_100 (table : List FeatureRow)
    (h : table.length = 100 ∨ table.length = 101) :
    create_sequences table 100 = Except.ok
      { Xcat := [(table.take 99).map (·.interaction_feature)]
        Xcont := [(table.take 99).map contFeatures]
        y := [((table.drop 1).take 99).map targetOf]
        maxLen := 99 } ∧
    (table.length = 100 → (table.drop 1).take 99 = table.drop 1 ∧
      (((table.drop 1).take 99).map targetOf).length = 99) := by
  have hlen_take : ((table.take 99).length = 99) := by
    rcases h with h | h <;> simp [List.length_take, h]
  have hlen_drop : (((table.drop 1).take 99).length = 99) := by
    rcases h with h | h <;> simp [List.length_take, List.length_drop, h]
  have hstarts : (strideStarts table.length 100).filter
      (fun i => 1 < ((table.drop i).take 100).length) = [0] := by
    rcases h with h | h
    · rw [h, strideStarts_100]
      simp [List.filter, List.length_take, List.length_drop, h]
    · rw [h, strideStarts_101]
      simp [List.filter, List.length_take, List.length_drop, h]
  have hchunks : sliceChunks table 100 =
      { Xcat := [(table.take 99).map (·.interaction_feature)]
        Xcont := [(table.take 99).map contFeatures]
        y := [((table.drop 1).take 99).map targetOf] } := by
    simp only [sliceChunks, hstarts]
    simp
  have hgt : ¬ table.length ≤ 1 := by rcases h with h | h <;> simp [h]
  constructor
  · simp only [create_sequences, if_neg hgt, hchunks]
    refine congrArg Except.ok ?_
    congr 1
    · rw [List.map_cons, List.map_nil, padPost_length_eq _ _ _ (by simp; rcases h with h | h <;> omega)]
    · rw [List.map_cons, List.map_nil, padPost_length_eq _ _ _ (by simp; rcases h with h | h <;> omega)]
    · rw [List.map_cons, List.map_nil, padPost_length_eq _ _ _ (by simp; rcases h with h | h <;> omega)]
  · intro h100
    constructor
    · exact List.take_of_length_le (by simp [List.length_drop, h100])
    · simp only [List.length_map, hlen_drop]

/-- C1 counterexample: an explicit feature table with exactly 101 rows
produces exactly one packed sequence, not two as the claim states. -/
theorem create_sequences_101_counterexample :
    (create_sequences table101 100).toOption.map (fun p => p.Xcat.length) = some 1 ∧
    ¬ ((create_sequences table101 100).toOption.map (fun p => p.Xcat.length) = some 2) := by
  constructor <;> decide

/-- C1 witness: the amended theorem applied to the concrete 101-row table. -/
theorem create_sequences_stride_100_witness :
    create_sequences table101 100 = Except.ok
      { Xcat := [(table101.take 99).map (·.interaction_feature)]
        Xcont := [(table101.take 99).map contFeatures]
        y := [((table101.drop 1).take 99).map targetOf]
        maxLen := 99 } :=
  (create_sequences_stride_100 table101 (Or.inr (by decide))).1

theorem map_getD_range {α β : Type} [Inhabited α] (l : List α) (g : α → β) :
    (List.range l.length).map (fun i => g (l.getD i default)) = l.map g := by
  induction l with
  | nil => rfl
  | cons a t ih =>
    have h1 : (a :: t).length = t.length + 1 := rfl
    rw [h1, List.range_succ_eq_map, List.map_cons, List.map_map]
    exact congrArg (List.cons (g a)) ih

theorem sortByStartTime_idem (l : List Interaction) :
    sortByStartTime (sortByStartTime l) = sortByStartTime l :=
  List.Sorted.insertionSort_eq (List.sorted_insertionSort startLE l)

theorem build_features_eq (log1p : ℚ → ℚ) (l : List Interaction) :
    build_features log1p l =
      (List.range (sortByStartTime l).length).map (mkFeatureRow log1p (sortByStartTime l)) := by
  unfold build_features preprocess_data preprocess_interaction_data
  rw [sortByStartTime_idem]

theorem sorted_eq_of_perm_of_nodup {s₁ s₂ : List Interaction}
    (hperm : List.Perm s₁ s₂) (hs₁ : List.Sorted startLE s₁)
    (hs₂ : List.Sorted startLE s₂) (hnd : (s₁.map (·.startTime)).Nodup) :
    s₁ = s₂ := by
  haveI : IsAntisymm Interaction (fun a b => a.startTime < b.startTime) :=
    ⟨fun a b h1 h2 => absurd h2 (lt_asymm h1)⟩
  have key : ∀ (l : List Interaction), l.Sorted startLE → (l.map (·.startTime)).Nodup →
      l.Pairwise (fun a b : Interaction => a.startTime < b.startTime) := by
    intro l hsort hndl
    have h1 : l.Pairwise (fun a b : Interaction => a.startTime ≠ b.startTime) :=
      List.pairwise_map.mp hndl
    exact (hsort.and h1).imp (fun h => lt_of_le_of_ne h.1 h.2)
  have hnd2 : (s₂.map (·.startTime)).Nodup := ((hperm.map (·.startTime)).nodup_iff).mp hnd
  exact List.eq_of_perm_of_sorted hperm (key _ hs₁ hnd) (key _ hs₂ hnd2)

theorem sortByStartTime_isSortValues : IsSortValues sortByStartTime :=
  fun l => ⟨List.perm_insertionSort startLE l, List.sorted_insertionSort startLE l⟩

theorem build_features_with_sortByStartTime (log1p : ℚ → ℚ) (data : List Interaction) :
    build_features_with sortByStartTime log1p data = build_features log1p data := rfl

/-- C2 (amended): pandas documents for `sort_values` only that the result
is a permutation of the rows sorted by the key — the order of tied keys is
unspecified (the default quicksort is not stable). For every sorting
routine satisfying that contract, and for every pair of input interaction
lists that are permutations of each other with pairwise-distinct start
times, the feature-engineering stage produces identical feature tables.
With tied start times permutation invariance fails (see the
counterexample), and the original claim's stable tie-breaking conjunct is
not a guarantee the program makes. -/
theorem build_features_permutation_invariance
    (sortf : List Interaction → List Interaction) (hf : IsSortValues sortf)
    (log1p : ℚ → ℚ) (l₁ l₂ : List Interaction)
    (hperm : List.Perm l₁ l₂) (hnodup : (l₁.map (·.startTime)).Nodup) :
    build_features_with sortf log1p l₁ = build_features_with sortf log1p l₂ := by
  have hsort : sortf (sortf l₁) = sortf (sortf l₂) := by
    have h11 := hf (sortf l₁)
    have h12 := hf l₁
    have h21 := hf (sortf l₂)
    have h22 := hf l₂
    have hperm' : List.Perm (sortf (sortf l₁)) (sortf (sortf l₂)) :=
      ((h11.1.trans h12.1).trans (hperm.trans (h21.1.trans h22.1).symm))
    have hnd1 : ((sortf (sortf l₁)).map (·.startTime)).Nodup :=
      (((h11.1.trans h12.1).map (·.startTime)).nodup_iff).mpr hnodup
    exact sorted_eq_of_perm_of_nodup hperm' h11.2 h21.2 hnd1
  unfold build_features_with
  rw [hsort]

/-- C2 counterexample: the two tied-start-time inputs are permutations of
each other, yet the feature stage produces different tables (the skill
names swap). Numpy sorts arrays below its small-array cutoff with a stable
insertion sort, so this two-element trace is exactly the program's
behavior: unrestricted permutation invariance is false. -/
theorem build_features_permutation_counterexample :
    List.Perm tiedPairA tiedPairB ∧
    ¬ (build_features id tiedPairA = build_features id tiedPairB) := by
  constructor <;> decide

/-- C2 witness: the sort-generic invariance applied at the executable
representative `sortByStartTime` to two concrete permuted inputs with
distinct start times. -/
theorem build_features_permutation_invariance_witness :
    build_features_with sortByStartTime id [⟨"a", true, 1, 2⟩, ⟨"b", false, 0, 3⟩] =
      build_features_with sortByStartTime id [⟨"b", false, 0, 3⟩, ⟨"a", true, 1, 2⟩] :=
  build_features_permutation_invariance sortByStartTime sortByStartTime_isSortValues id _ _
    (by decide) (by decide)

theorem tableGroup_map (log1p : ℚ → ℚ) (s : List Interaction) (sid : ℤ) :
    (((List.range s.length).map (mkFeatureRow log1p s)).filter
        (fun x => x.skill_id = sid)).map (fun x => (x.skill_id, (x.correct : ℚ))) =
      (skillGroup s sid).map (fun x => (skillIdRow s x, (correctInt x.correct : ℚ))) := by
  have hbase : ((List.range s.length).map (mkFeatureRow log1p s)).map
        (fun x : FeatureRow => (x.skill_id, (x.correct : ℚ))) =
      s.map (fun x => (skillIdRow s x, (correctInt x.correct : ℚ))) := by
    rw [List.map_map]
    exact map_getD_range s (fun x => (skillIdRow s x, (correctInt x.correct : ℚ)))
  calc (((List.range s.length).map (mkFeatureRow log1p s)).filter
          (fun x => x.skill_id = sid)).map (fun x => (x.skill_id, (x.correct : ℚ)))
      = (((List.range s.length).map (mkFeatureRow log1p s)).map
          (fun x : FeatureRow => (x.skill_id, (x.correct : ℚ)))).filter
          (fun pr => pr.1 = sid) := by
        exact (List.filter_map (p := fun pr => decide (pr.1 = sid))
          (fun x : FeatureRow => (x.skill_id, (x.correct : ℚ)))
          ((List.range s.length).map (mkFeatureRow log1p s))).symm
    _ = (s.map (fun x => (skillIdRow s x, (correctInt x.correct : ℚ)))).filter
          (fun pr => pr.1 = sid) := by rw [hbase]
    _ = (skillGroup s sid).map (fun x => (skillIdRow s x, (correctInt x.correct : ℚ))) := by
        exact List.filter_map (p := fun pr => decide (pr.1 = sid))
          (fun x : Interaction => (skillIdRow s x, (correctInt x.correct : ℚ))) s

/-- C3: every feature row carries `skill_difficulty` equal to the
Bayesian-smoothed empirical difficulty of its skill, computed from its own
request's rows: `((1 - mean(correct)) * n + 0.5 * 10) / (n + 10)` where `n`
is the number of rows of that skill in the table. -/
theorem skill_difficulty_formula (log1p : ℚ → ℚ) (data : List Interaction) (r : FeatureRow)
    (hr : r ∈ build_features log1p data) :
    r.skill_difficulty =
      ((1 - (((build_features log1p data).filter (fun x => x.skill_id = r.skill_id)).map
            (fun x => (x.correct : ℚ))).sum /
          ((((build_features log1p data).filter (fun x => x.skill_id = r.skill_id)).length : ℕ) : ℚ)) *
        ((((build_features log1p data).filter (fun x => x.skill_id = r.skill_id)).length : ℕ) : ℚ) +
        0.5 * 10) /
      (((((build_features log1p data).filter (fun x => x.skill_id = r.skill_id)).length : ℕ) : ℚ) + 10) := by
  rw [build_features_eq] at hr
  rw [build_features_eq]
  obtain ⟨i, _, rfl⟩ := List.mem_map.mp hr
  have hmain := tableGroup_map log1p (sortByStartTime data)
    ((mkFeatureRow log1p (sortByStartTime data) i).skill_id)
  have hlen : (((List.range (sortByStartTime data).length).map
        (mkFeatureRow log1p (sortByStartTime data))).filter
        (fun x => x.skill_id = (mkFeatureRow log1p (sortByStartTime data) i).skill_id)).length =
      (skillGroup (sortByStartTime data)
        ((mkFeatureRow log1p (sortByStartTime data) i).skill_id)).length := by
    have h := congrArg List.length hmain
    simpa using h
  have hsum : ((((List.range (sortByStartTime data).length).map
        (mkFeatureRow log1p (sortByStartTime data))).filter
        (fun x => x.skill_id = (mkFeatureRow log1p (sortByStartTime data) i).skill_id)).map
        (fun x => (x.correct : ℚ))).sum =
      ((skillGroup (sortByStartTime data)
        ((mkFeatureRow log1p (sortByStartTime data) i).skill_id)).map
        (fun x => (correctInt x.correct : ℚ))).sum := by
    have h := congrArg (fun u : List (ℤ × ℚ) => (u.map (fun pr => pr.2)).sum) hmain
    simpa [List.map_map, Function.comp] using h
  rw [hsum, hlen]
  rfl

/-- C3 witness: the formula instantiated on the first row of the
`oneMissData` table. -/
theorem skill_difficulty_formula_witness :
    oneMissRow.skill_difficulty =
      ((1 - (((build_features id oneMissData).filter (fun x => x.skill_id = oneMissRow.skill_id)).map
            (fun x => (x.correct : ℚ))).sum /
          ((((build_features id oneMissData).filter (fun x => x.skill_id = oneMissRow.skill_id)).length : ℕ) : ℚ)) *
        ((((build_features id oneMissData).filter (fun x => x.skill_id = oneMissRow.skill_id)).length : ℕ) : ℚ) +
        0.5 * 10) /
      (((((build_features id oneMissData).filter (fun x => x.skill_id = oneMissRow.skill_id)).length : ℕ) : ℚ) + 10) :=
  skill_difficulty_formula id oneMissData oneMissRow (by
    have h0 : 0 < (build_features id oneMissData).length := by decide
    rcases hE : build_features id oneMissData with _ | ⟨a, t⟩
    · rw [hE] at h0; simp at h0
    · simp [oneMissRow, hE])

theorem strideStarts_one (n : ℕ) (h1 : 1 ≤ n) (h2 : n ≤ 100) : strideStarts n 100 = [0] := by
  unfold strideStarts
  have : (n + 100 - 1) / 100 = 1 := by omega
  rw [this]
  rfl

theorem padPost_length {α : Type} (v : α) (l : List α) (len : ℕ) :
    (padPost len v l).length = len := by
  unfold padPost
  split <;> simp <;> omega

theorem sliceChunks_small (table : List FeatureRow) (h2 : 2 ≤ table.length)
    (h99 : table.length ≤ 99) :
    sliceChunks table 100 =
      { Xcat := [table.map (·.interaction_feature)]
        Xcont := [table.map contFeatures]
        y := [(table.drop 1).map targetOf] } := by
  have hfil : ((strideStarts table.length 100).filter
      (fun i => 1 < ((table.drop i).take 100).length)) = [0] := by
    rw [strideStarts_one _ (by omega) (by omega),
      List.filter_cons_of_pos (by
        simp only [List.length_take, List.length_drop, decide_eq_true_eq, Nat.sub_zero,
          List.drop_zero, lt_min_iff]
        omega),
      List.filter_nil]
  have htake : table.take 99 = table := List.take_of_length_le (by omega)
  have htake2 : (table.drop 1).take 99 = table.drop 1 :=
    List.take_of_length_le (by rw [List.length_drop]; omega)
  unfold sliceChunks
  rw [hfil]
  simp only [List.map_cons, List.map_nil, List.drop_zero, Nat.zero_add]
  rw [htake, htake2]

theorem create_sequences_small (table : List FeatureRow) (h2 : 2 ≤ table.length)
    (h99 : table.length ≤ 99) :
    create_sequences table 100 = Except.ok
      { Xcat := [padPost 99 0 (table.map (·.interaction_feature))]
        Xcont := [padPost 99 (List.replicate 5 0) (table.map contFeatures)]
        y := [padPost 99 (-1, -1) ((table.drop 1).map targetOf)]
        maxLen := 99 } := by
  rw [create_sequences, if_neg (by omega), sliceChunks_small table h2 h99]
  rfl

theorem sample_pairwise (T : ℚ) : (create_sample_data T).Pairwise startLE := by
  simp [create_sample_data, List.pairwise_cons, startLE, sub_le_sub_iff_left]
  repeat' apply And.intro
  all_goals linarith

theorem sample_sorted_eq (T : ℚ) :
    sortByStartTime (create_sample_data T) = create_sample_data T :=
  List.Sorted.insertionSort_eq (sample_pairwise T)

theorem sample_tbl (log1p : ℚ → ℚ) (T : ℚ) :
    build_features log1p (create_sample_data T) =
      (List.range (create_sample_data T).length).map (mkFeatureRow log1p (create_sample_data T)) := by
  rw [build_features_eq, sample_sorted_eq]

theorem sample_tbl_length (log1p : ℚ → ℚ) (T : ℚ) :
    ((List.range (create_sample_data T).length).map
      (mkFeatureRow log1p (create_sample_data T))).length = 8 := by
  simp [create_sample_data]

/-- C4 (amended): for the repository's 8-interaction sample data, feature
engineering yields 8 rows with skill ids assigned `addition=1,
subtraction=2, multiplication=3, division=4` (row ids `[1,2,1,3,4,3,1,2]`);
packing yields exactly one chunk whose unpadded input slice has length 8
(the slice `[0, 99)` keeps all 8 rows — not 7 as claimed) and whose
unpadded target slice has length 7, both right-padded to 99; and a stubbed
model output of uniform `1/4` for all 4 skills at every position decodes to
exactly the four sample skills each with probability `1/4`. -/
theorem sample_data_end_to_end (log1p : ℚ → ℚ) (T : ℚ) :
    (build_features log1p (create_sample_data T)).length = 8 ∧
    requestSkillMap (sortByStartTime (create_sample_data T)) =
      [("addition", 1), ("subtraction", 2), ("multiplication", 3), ("division", 4)] ∧
    (build_features log1p (create_sample_data T)).map (·.skill_id) = [1, 2, 1, 3, 4, 3, 1, 2] ∧
    (sliceChunks (build_features log1p (create_sample_data T)) 100).Xcat.map List.length = [8] ∧
    (sliceChunks (build_features log1p (create_sample_data T)) 100).y.map List.length = [7] ∧
    (∃ p, create_sequences (build_features log1p (create_sample_data T)) 100 = Except.ok p ∧
      p.Xcat.map List.length = [99] ∧ p.y.map List.length = [99] ∧ p.maxLen = 99) ∧
    infer_decode [(1, "addition"), (2, "subtraction"), (3, "multiplication"), (4, "division")]
        [List.replicate 99 (List.replicate 4 (1/4 : ℚ))] =
      [("addition", 1/4), ("subtraction", 1/4), ("multiplication", 1/4), ("division", 1/4)] := by
  have htbl := sample_tbl log1p T
  have hlen8 := sample_tbl_length log1p T
  have h2 : 2 ≤ ((List.range (create_sample_data T).length).map
      (mkFeatureRow log1p (create_sample_data T))).length := by rw [hlen8]; norm_num
  have h99 : ((List.range (create_sample_data T).length).map
      (mkFeatureRow log1p (create_sample_data T))).length ≤ 99 := by rw [hlen8]; norm_num
  refine ⟨by rw [htbl, hlen8], by rw [sample_sorted_eq]; rfl, by rw [htbl]; rfl, ?_, ?_, ?_, rfl⟩
  · rw [htbl, sliceChunks_small _ h2 h99]
    simp [hlen8, create_sample_data]
  · rw [htbl, sliceChunks_small _ h2 h99]
    simp [List.length_drop, hlen8, create_sample_data]
  · rw [htbl, create_sequences_small _ h2 h99]
    exact ⟨_, rfl, by simp [padPost_length], by simp [padPost_length], rfl⟩

/-- C4 counterexample: at the concrete sample time `T = 0`, the single
packed chunk's unpadded input slice has length 8, not 7 as the claim
states. -/
theorem sample_input_slice_counterexample :
    ((sliceChunks (build_features id (create_sample_data 0)) 100).Xcat.headD []).length = 8 ∧
    ¬ (((sliceChunks (build_features id (create_sample_data 0)) 100).Xcat.headD []).length = 7) := by
  have htbl := sample_tbl id 0
  have hlen8 := sample_tbl_length id 0
  have h2 : 2 ≤ ((List.range (create_sample_data 0).length).map
      (mkFeatureRow id (create_sample_data 0))).length := by rw [hlen8]; norm_num
  have h99 : ((List.range (create_sample_data 0).length).map
      (mkFeatureRow id (create_sample_data 0))).length ≤ 99 := by rw [hlen8]; norm_num
  have hmain : ((sliceChunks (build_features id (create_sample_data 0)) 100).Xcat.headD []).length = 8 := by
    rw [htbl, sliceChunks_small _ h2 h99]
    simp [hlen8, create_sample_data]
  exact ⟨hmain, by rw [hmain]; norm_num⟩

theorem find_map_update (d : List (String × ℚ)) (k : String) (v : ℚ) (k' : String) :
    ((d.map (fun p => if p.1 = k then (k, v) else p)).find? (fun p => p.1 = k')) =
      if k' = k then (d.find? (fun p => p.1 = k)).map (fun _ => (k, v))
      else d.find? (fun p => p.1 = k') := by
  induction d with
  | nil => by_cases h : k' = k <;> simp [h]
  | cons a d ih =>
    simp only [List.map_cons]
    by_cases h1 : a.1 = k
    · rw [if_pos h1]
      by_cases h2 : k' = k
      · rw [if_pos h2, List.find?_cons_of_pos _ (by simp [h2]),
          List.find?_cons_of_pos _ (by simp [h1])]
        simp
      · rw [if_neg h2, List.find?_cons_of_neg _ (by simp [Ne.symm h2]),
          List.find?_cons_of_neg _ (by
            simp only [decide_eq_true_eq]
            exact fun hh => h2 ((h1.symm.trans hh).symm)),
          ih, if_neg h2]
    · rw [if_neg h1]
      by_cases h3 : k' = k
      · have h2 : ¬ a.1 = k' := fun hh => h1 (hh.trans h3)
        rw [if_pos h3, List.find?_cons_of_neg _ (by simp [h2]),
          List.find?_cons_of_neg _ (by simp [h1]), ih, if_pos h3]
      · by_cases h2 : a.1 = k'
        · rw [if_neg h3, List.find?_cons_of_pos _ (by simp [h2]),
            List.find?_cons_of_pos _ (by simp [h2])]
        · rw [if_neg h3, List.find?_cons_of_neg _ (by simp [h2]),
            List.find?_cons_of_neg _ (by simp [h2]), ih, if_neg h3]

theorem lookup_dictInsert (d : List (String × ℚ)) (k : String) (v : ℚ) (k' : String) :
    lookupName (dictInsert d k v) k' = if k' = k then some v else lookupName d k' := by
  unfold dictInsert lookupName
  by_cases hany : d.any (fun p => p.1 = k)
  · rw [if_pos hany, find_map_update]
    by_cases h2 : k' = k
    · have hsome : (d.find? (fun p => p.1 = k)).isSome :=
        List.find?_isSome.mpr (by simpa using List.any_eq_true.mp hany)
      obtain ⟨a, ha⟩ := Option.isSome_iff_exists.mp hsome
      simp [h2, ha]
    · simp [h2]
  · rw [if_neg hany, List.find?_append]
    by_cases h2 : k' = k
    · have hnone : d.find? (fun p => p.1 = k') = none := by
        rw [List.find?_eq_none]
        intro x hx
        simp only [decide_eq_true_eq]
        intro hxk
        have := (List.any_eq_false.mp (Bool.eq_false_iff.mpr hany)) x hx
        simp only [decide_eq_true_eq] at this
        exact this (hxk.trans h2)
      have hone : ([(k, v)].find? (fun p => p.1 = k')) = some (k, v) :=
        List.find?_cons_of_pos _ (by simp [h2])
      rw [hnone, hone, if_pos h2]
      rfl
    · have hone : ([(k, v)].find? (fun p => p.1 = k')) = none := by
        rw [List.find?_eq_none]
        intro x hx
        simp only [List.mem_singleton] at hx
        simp [hx, Ne.symm h2]
      rw [hone, if_neg h2]
      cases d.find? (fun p => p.1 = k') <;> rfl

theorem lookup_foldl_dictInsert (kvs : List (String × ℚ)) (d : List (String × ℚ)) (k : String) :
    lookupName (kvs.foldl (fun acc p => dictInsert acc p.1 p.2) d) k =
      (kvs.reverse.find? (fun p => p.1 = k)).elim (lookupName d k) (fun p => some p.2) := by
  induction kvs generalizing d with
  | nil => simp
  | cons a kvs ih =>
    rw [List.foldl_cons, ih, List.reverse_cons, List.find?_append]
    cases hf : kvs.reverse.find? (fun p => p.1 = k) with
    | some p => simp [hf]
    | none =>
      simp only [hf, Option.none_or, Option.elim]
      rw [lookup_dictInsert]
      by_cases h2 : k = a.1
      · have hone : ([a].find? (fun p => p.1 = k)) = some a :=
          List.find?_cons_of_pos _ (by simp [← h2])
        rw [hone, if_pos h2]
      · have hone : ([a].find? (fun p => p.1 = k)) = none := by
          rw [List.find?_eq_none]
          intro x hx
          simp only [List.mem_singleton] at hx
          subst hx
          simp only [decide_eq_true_eq]
          exact fun hh => h2 hh.symm
        rw [hone, if_neg h2]

/-- C5: the decoder reads the last time step of every produced sequence,
and for each model-internal skill index the reported probability is the one
written by the last sequence in iteration order — later sequences overwrite
earlier ones (no averaging): whatever sequences `rs` precede the final
sequence `b`, the decoded value at `b`'s skill index `j` is `b`'s last-step
value. -/
theorem decode_last_sequence_wins (revMap : List (ℤ × String))
    (rs : List (List (List ℚ))) (b : List (List ℚ)) (j : ℕ) (v : ℚ)
    (hv : (b.getLastD []).get? j = some v)
    (hinj : ∀ i < (b.getLastD []).length,
      skillNameOf revMap i = skillNameOf revMap j → i = j) :
    lookupName (infer_decode revMap (rs ++ [b])) (skillNameOf revMap j) = some v := by
  unfold infer_decode
  rw [List.foldl_append, List.foldl_cons, List.foldl_nil]
  unfold decodeStep
  rw [← List.foldl_map (fun jk : ℕ × ℚ => (skillNameOf revMap jk.1, jk.2))
    (fun acc p => dictInsert acc p.1 p.2)]
  rw [lookup_foldl_dictInsert]
  cases hf : (((b.getLastD []).enum.map
      (fun jk => (skillNameOf revMap jk.1, jk.2))).reverse.find?
      (fun p => p.1 = skillNameOf revMap j)) with
  | none =>
    exfalso
    rw [List.find?_eq_none] at hf
    have hmem : ((skillNameOf revMap j, v) : String × ℚ) ∈
        ((b.getLastD []).enum.map (fun jk => (skillNameOf revMap jk.1, jk.2))).reverse := by
      rw [List.mem_reverse]
      exact List.mem_map.mpr ⟨(j, v), List.mem_enum_iff_get?.mpr hv, rfl⟩
    exact hf _ hmem (by simp)
  | some p =>
    have hp := List.find?_some hf
    have hpmem : p ∈ ((b.getLastD []).enum.map
        (fun jk => (skillNameOf revMap jk.1, jk.2))).reverse := List.mem_of_find?_eq_some hf
    rw [List.mem_reverse] at hpmem
    obtain ⟨jk, hjk, rfl⟩ := List.mem_map.mp hpmem
    have hjk' : (b.getLastD []).get? jk.1 = some jk.2 := List.mem_enum_iff_get?.mp hjk
    have hname : skillNameOf revMap jk.1 = skillNameOf revMap j := by simpa using hp
    have hlt : jk.1 < (b.getLastD []).length := (List.get?_eq_some.mp hjk').1
    have heq : jk.1 = j := hinj jk.1 hlt hname
    rw [heq] at hjk'
    rw [hv] at hjk'
    simp only [Option.some.injEq] at hjk'
    simp [hjk']

/-- C5 witness: with two chunks both carrying values for skill index 0, the
decoded map holds the second chunk's value 2, not the first chunk's 5. -/
theorem decode_last_sequence_wins_witness :
    lookupName (infer_decode [(1, "a"), (2, "b")] ([[[5, 7]]] ++ [[[2, 3]]]))
      (skillNameOf [(1, "a"), (2, "b")] 0) = some 2 :=
  decode_last_sequence_wins [(1, "a"), (2, "b")] [[[5, 7]]] [[2, 3]] 0 2 rfl (by decide)

theorem build_features_length (log1p : ℚ → ℚ) (data : List Interaction) :
    (build_features log1p data).length = data.length := by
  rw [build_features_eq, List.length_map, List.length_range]
  exact (List.perm_insertionSort startLE data).length_eq

/-- C6: with exactly 1 interaction the pipeline stops at validation with
the minimum-size error — the feature, packing and model stages never run
and no partial mastery map is produced; with exactly 2 valid interactions
the pipeline succeeds end to end and the feature table has exactly 2
rows. -/
theorem minimum_size_boundary (log1p : ℚ → ℚ)
    (model : List (List ℤ) → List (List (List ℚ)) → List (List (List ℚ)))
    (revMap : List (ℤ × String)) (data : List Interaction) :
    (data.length = 1 →
      get_mastery_scores log1p model revMap data =
        Except.error "At least 2 interactions are required for inference") ∧
    (data.length = 2 → (∀ x ∈ data, x.startTime ≤ x.endTime) →
      (∃ m, get_mastery_scores log1p model revMap data = Except.ok m) ∧
      (build_features log1p data).length = 2) := by
  constructor
  · intro h1
    have hv : validate_interaction_data data =
        Except.error "At least 2 interactions are required for inference" := by
      unfold validate_interaction_data
      rw [if_pos (by omega)]
    simp [get_mastery_scores, hv, bind, Except.bind]
  · intro h2 hvalid
    have hv : validate_interaction_data data = Except.ok () := by
      unfold validate_interaction_data
      rw [if_neg (by omega)]
      have : data.find? (fun x => x.endTime < x.startTime) = none := by
        rw [List.find?_eq_none]
        intro x hx
        simp only [decide_eq_true_eq, not_lt]
        exact hvalid x hx
      rw [this]
    have hlen : (preprocess_data log1p (preprocess_interaction_data data)).length = 2 := by
      have := build_features_length log1p data
      unfold build_features at this
      omega
    have hcs : ¬ (preprocess_data log1p (preprocess_interaction_data data)).length ≤ 1 := by
      omega
    constructor
    · exact ⟨_, by
        simp only [get_mastery_scores, hv, create_sequences, if_neg hcs, bind, Except.bind]
        rfl⟩
    · rw [build_features_length]
      exact h2

/-- C6 witness: a concrete 1-interaction input fails validation; the
concrete valid 2-interaction input succeeds with a 2-row table. -/
theorem minimum_size_boundary_witness :
    get_mastery_scores id (fun _ _ => [[[2]]]) [(1, "a")] [⟨"a", true, 0, 1⟩] =
      Except.error "At least 2 interactions are required for inference" ∧
    ((∃ m, get_mastery_scores id (fun _ _ => [[[2]]]) [(1, "a")] tiedPairA = Except.ok m) ∧
      (build_features id tiedPairA).length = 2) :=
  ⟨(minimum_size_boundary id (fun _ _ => [[[2]]]) [(1, "a")] [⟨"a", true, 0, 1⟩]).1 rfl,
   (minimum_size_boundary id (fun _ _ => [[[2]]]) [(1, "a")] tiedPairA).2 rfl (by decide)⟩

theorem foldl_max_init_le {α : Type} [LinearOrder α] (xs : List α) (a : α) :
    a ≤ xs.foldl max a := by
  induction xs generalizing a with
  | nil => exact le_refl a
  | cons x xs ih => exact le_trans (le_max_left a x) (ih (max a x))

theorem le_foldl_max_of_mem {α : Type} [LinearOrder α] {x : α} {xs : List α}
    (h : x ∈ xs) (a : α) : x ≤ xs.foldl max a := by
  induction xs generalizing a with
  | nil => cases h
  | cons y ys ih =>
    rcases List.mem_cons.mp h with rfl | hmem
    · exact le_trans (le_max_right a x) (foldl_max_init_le ys (max a x))
    · exact ih hmem (max a y)

theorem foldl_max_le {α : Type} [LinearOrder α] {xs : List α} {a c : α}
    (ha : a ≤ c) (h : ∀ x ∈ xs, x ≤ c) : xs.foldl max a ≤ c := by
  induction xs generalizing a with
  | nil => exact ha
  | cons y ys ih =>
    exact ih (max_le ha (h y (List.mem_cons_self y ys))) (fun x hx => h x (List.mem_cons_of_mem y hx))

theorem le_qListMax {x : ℚ} {xs : List ℚ} (h : x ∈ xs) : x ≤ qListMax xs := by
  cases xs with
  | nil => cases h
  | cons y ys =>
    rcases List.mem_cons.mp h with rfl | hmem
    · exact foldl_max_init_le ys x
    · exact le_foldl_max_of_mem hmem y

theorem qListMax_le {xs : List ℚ} {c : ℚ} (hne : xs ≠ []) (h : ∀ x ∈ xs, x ≤ c) :
    qListMax xs ≤ c := by
  cases xs with
  | nil => exact absurd rfl hne
  | cons y ys =>
    exact foldl_max_le (h y (List.mem_cons_self y ys)) (fun x hx => h x (List.mem_cons_of_mem y hx))

theorem le_zListMax {x : ℤ} {xs : List ℤ} (h : x ∈ xs) : x ≤ zListMax xs := by
  cases xs with
  | nil => cases h
  | cons y ys =>
    rcases List.mem_cons.mp h with rfl | hmem
    · exact foldl_max_init_le ys x
    · exact le_foldl_max_of_mem hmem y

theorem attemptCount_zero (l : List Interaction) (hne : l ≠ []) :
    attemptCount l 0 = 1 := by
  cases l with
  | nil => exact absurd rfl hne
  | cons x xs =>
    simp [attemptCount, List.take, List.filter]

theorem maxAttemptCount_pos (l : List Interaction) (hne : l ≠ []) :
    1 ≤ maxAttemptCount l := by
  have h0 : attemptCount l 0 ∈ (List.range l.length).map (attemptCount l) := by
    refine List.mem_map.mpr ⟨0, ?_, rfl⟩
    rw [List.mem_range]
    cases l with
    | nil => exact absurd rfl hne
    | cons x xs => simp
  calc (1 : ℤ) = attemptCount l 0 := (attemptCount_zero l hne).symm
    _ ≤ maxAttemptCount l := le_zListMax h0

/-- C7 (amended): none of the three scaling divisions adds an epsilon to
its denominator. The `time_since_last` denominator `log1p 86400` and the
attempt-count denominator `log1p (max attempt count)` are nonetheless
always positive for nonempty input (the max attempt count is at least 1),
but the `time_taken` denominator `max_log_time` is exactly 0 whenever every
interaction's clipped duration is zero (e.g. identical start and end
times), so that scaling division does divide by zero there; it is positive
as soon as one clipped duration is positive. `log1p` is any function with
`log1p 0 = 0` that is strictly monotone, as the real `x ↦ ln (1+x)` is. -/
theorem scaling_denominators (log1p : ℚ → ℚ) (h0 : log1p 0 = 0) (hmono : StrictMono log1p)
    (data : List Interaction) (hne : data ≠ []) :
    0 < log1p 86400 ∧
    0 < log1p ((maxAttemptCount (sortByStartTime data) : ℤ) : ℚ) ∧
    ((∀ x ∈ data, timeTaken x = 0) → maxLogTime log1p (sortByStartTime data) = 0) ∧
    ((∃ x ∈ data, 0 < timeTaken x) → 0 < maxLogTime log1p (sortByStartTime data)) := by
  have hsne : sortByStartTime data ≠ [] := by
    intro hemp
    have := (List.perm_insertionSort startLE data).length_eq
    rw [show List.insertionSort startLE data = sortByStartTime data from rfl, hemp] at this
    exact hne (List.length_eq_zero.mp this.symm)
  have hmem_iff : ∀ x, x ∈ sortByStartTime data ↔ x ∈ data := by
    intro x
    exact (List.perm_insertionSort startLE data).mem_iff
  refine ⟨?_, ?_, ?_, ?_⟩
  · have := hmono (show (0:ℚ) < 86400 by norm_num)
    rwa [h0] at this
  · have h1 : (1 : ℤ) ≤ maxAttemptCount (sortByStartTime data) :=
      maxAttemptCount_pos _ hsne
    have : (0 : ℚ) < ((maxAttemptCount (sortByStartTime data) : ℤ) : ℚ) := by
      exact_mod_cast lt_of_lt_of_le zero_lt_one h1
    have h2 := hmono this
    rwa [h0] at h2
  · intro hall
    have hone : ∀ y ∈ (sortByStartTime data).map (fun x => log1p (timeTaken x)), y = 0 := by
      intro y hy
      obtain ⟨x, hx, rfl⟩ := List.mem_map.mp hy
      rw [hall x ((hmem_iff x).mp hx), h0]
    unfold maxLogTime
    have hne2 : (sortByStartTime data).map (fun x => log1p (timeTaken x)) ≠ [] := by
      intro hemp
      exact hsne (List.map_eq_nil.mp hemp)
    obtain ⟨y, hy⟩ := List.exists_mem_of_ne_nil _ hne2
    have hle : qListMax ((sortByStartTime data).map (fun x => log1p (timeTaken x))) ≤ 0 :=
      qListMax_le hne2 (fun x hx => le_of_eq (hone x hx))
    have hge : 0 ≤ qListMax ((sortByStartTime data).map (fun x => log1p (timeTaken x))) := by
      have := le_qListMax hy
      rwa [hone y hy] at this
    exact le_antisymm hle hge
  · rintro ⟨x, hx, hpos⟩
    have hmem : log1p (timeTaken x) ∈ (sortByStartTime data).map (fun y => log1p (timeTaken y)) :=
      List.mem_map.mpr ⟨x, (hmem_iff x).mpr hx, rfl⟩
    have h1 : 0 < log1p (timeTaken x) := by
      have := hmono hpos
      rwa [h0] at this
    exact lt_of_lt_of_le h1 (le_qListMax hmem)

/-- C7 counterexample: on a valid input whose interactions all have equal
start and end times, the `max_log_time` denominator evaluates to exactly 0,
refuting the claim that no scaling division has a zero denominator. -/
theorem zero_duration_counterexample :
    maxLogTime id (sortByStartTime zeroDurationData) = 0 ∧
    ¬ (maxLogTime id (sortByStartTime zeroDurationData) ≠ 0) := by
  have hsort : sortByStartTime zeroDurationData = zeroDurationData :=
    List.Sorted.insertionSort_eq (by decide)
  have h1 : timeTaken ⟨"a", true, 5, 5⟩ = 0 := by
    unfold timeTaken clipQ
    norm_num
  have h2 : timeTaken ⟨"b", false, 5, 5⟩ = 0 := by
    unfold timeTaken clipQ
    norm_num
  have hmain : maxLogTime id (sortByStartTime zeroDurationData) = 0 := by
    rw [hsort]
    unfold maxLogTime zeroDurationData
    rw [List.map_cons, List.map_cons, List.map_nil, h1, h2]
    simp [qListMax]
  exact ⟨hmain, fun h => h hmain⟩

/-- C7 witness: the amended denominators theorem applied at `log1p = id`
(which satisfies `id 0 = 0` and strict monotonicity) on the concrete
zero-duration input. -/
theorem scaling_denominators_witness :
    0 < id (86400 : ℚ) ∧
    0 < id ((maxAttemptCount (sortByStartTime zeroDurationData) : ℤ) : ℚ) ∧
    ((∀ x ∈ zeroDurationData, timeTaken x = 0) →
      maxLogTime id (sortByStartTime zeroDurationData) = 0) ∧
    ((∃ x ∈ zeroDurationData, 0 < timeTaken x) →
      0 < maxLogTime id (sortByStartTime zeroDurationData)) :=
  scaling_denominators id rfl strictMono_id zeroDurationData (by simp [zeroDurationData])

/-- C8: for a skill whose `correct` values are all 0, the computed
`skill_difficulty` is `(n + 5) / (n + 10)` where `n` is the number of
observations; for `n = 1` this is exactly `6/11` — strictly between the
`0.5` prior and the raw difficulty `1.0`, hence not equal to `1.0` (pulled
toward the prior); for `n = 1000` it is exactly `201/202`, within `1/100`
of `1.0`. -/
theorem difficulty_smoothing_convergence (log1p : ℚ → ℚ) (data : List Interaction)
    (r : FeatureRow) (hr : r ∈ build_features log1p data)
    (hall : ∀ x ∈ skillGroup (sortByStartTime data) r.skill_id, x.correct = false) :
    (r.skill_difficulty =
      (((skillGroup (sortByStartTime data) r.skill_id).length : ℚ) + 5) /
      (((skillGroup (sortByStartTime data) r.skill_id).length : ℚ) + 10)) ∧
    ((skillGroup (sortByStartTime data) r.skill_id).length = 1 →
      r.skill_difficulty = 6/11 ∧ r.skill_difficulty ≠ 1 ∧
      1/2 < r.skill_difficulty ∧ r.skill_difficulty < 1) ∧
    ((skillGroup (sortByStartTime data) r.skill_id).length = 1000 →
      r.skill_difficulty = 201/202 ∧ 1 - r.skill_difficulty < 1/100) := by
  rw [build_features_eq] at hr
  obtain ⟨i, _, rfl⟩ := List.mem_map.mp hr
  have hdiff : (mkFeatureRow log1p (sortByStartTime data) i).skill_difficulty =
      smoothedDifficulty (sortByStartTime data)
        ((mkFeatureRow log1p (sortByStartTime data) i).skill_id) := rfl
  have hsum : ((skillGroup (sortByStartTime data)
      ((mkFeatureRow log1p (sortByStartTime data) i).skill_id)).map
      (fun x => (correctInt x.correct : ℚ))).sum = 0 := by
    apply List.sum_eq_zero
    intro y hy
    obtain ⟨x, hx, rfl⟩ := List.mem_map.mp hy
    rw [hall x hx]
    rfl
  have hformula : (mkFeatureRow log1p (sortByStartTime data) i).skill_difficulty =
      (((skillGroup (sortByStartTime data)
          ((mkFeatureRow log1p (sortByStartTime data) i).skill_id)).length : ℚ) + 5) /
      (((skillGroup (sortByStartTime data)
          ((mkFeatureRow log1p (sortByStartTime data) i).skill_id)).length : ℚ) + 10) := by
    rw [hdiff]
    simp only [smoothedDifficulty]
    rw [hsum]
    norm_num
  refine ⟨hformula, ?_, ?_⟩
  · intro h1
    rw [hformula, h1]
    norm_num
  · intro h1
    rw [hformula, h1]
    norm_num

/-- C8 witness: the skill "hard", observed exactly once and incorrectly in
`oneMissData`, has smoothed difficulty exactly `6/11`, which is strictly
between `1/2` and `1`. -/
theorem difficulty_smoothing_convergence_witness :
    oneMissRow.skill_difficulty = 6/11 ∧ oneMissRow.skill_difficulty ≠ 1 ∧
    1/2 < oneMissRow.skill_difficulty ∧ oneMissRow.skill_difficulty < 1 :=
  (difficulty_smoothing_convergence id oneMissData oneMissRow
    (by
      have h0 : 0 < (build_features id oneMissData).length := by decide
      rcases hE : build_features id oneMissData with _ | ⟨a, t⟩
      · rw [hE] at h0; simp at h0
      · simp [oneMissRow, hE])
    (by decide)).2.1 (by decide)

/-- C9: whatever the raw model output — including values outside `[0, 1]`
— every probability in a successfully returned mastery map has been clipped
into `[0.0, 1.0]` by `max(0.0, min(1.0, score))` before being returned. -/
theorem mastery_scores_clipped (log1p : ℚ → ℚ)
    (model : List (List ℤ) → List (List (List ℚ)) → List (List (List ℚ)))
    (revMap : List (ℤ × String)) (data : List Interaction) (m : List (String × ℚ))
    (hm : get_mastery_scores log1p model revMap data = Except.ok m) :
    ∀ p ∈ m, 0 ≤ p.2 ∧ p.2 ≤ 1 := by
  unfold get_mastery_scores at hm
  cases h1 : validate_interaction_data data with
  | error e =>
    rw [h1] at hm
    simp [bind, Except.bind] at hm
  | ok u =>
    rw [h1] at hm
    simp only [bind, Except.bind] at hm
    cases h2 : create_sequences (preprocess_data log1p (preprocess_interaction_data data)) 100 with
    | error e =>
      rw [h2] at hm
      simp at hm
    | ok packed =>
      rw [h2] at hm
      simp only [Except.ok.injEq] at hm
      subst hm
      intro p hp
      obtain ⟨q, _, rfl⟩ := List.mem_map.mp hp
      unfold clipScore
      refine ⟨le_max_left 0 _, ?_⟩
      exact max_le (by norm_num) (min_le_left 1 q.2)

/-- C9 witness: a stub model emitting the out-of-range value 2 yields a
returned map whose value is the clipped 1, inside `[0, 1]`. -/
theorem mastery_scores_clipped_witness :
    0 ≤ ((("a" : String), (1 : ℚ)) : String × ℚ).2 ∧
      ((("a" : String), (1 : ℚ)) : String × ℚ).2 ≤ 1 :=
  mastery_scores_clipped id (fun _ _ => [[[2]]]) [(1, "a")] tiedPairA [("a", 1)] rfl
    ("a", 1) (by decide)

theorem padPost_getD {α : Type} (v w : α) (s : List α) (len k : ℕ)
    (hlen : s.length ≤ len) (hk : k < len) :
    (padPost len v s).getD k w = if k < s.length then s.getD k w else v := by
  rw [padPost_eq_append v s len hlen]
  by_cases hks : k < s.length
  · rw [if_pos hks, List.getD_append _ _ w k hks]
  · rw [if_neg hks, List.getD_append_right _ _ w k (le_of_not_lt hks)]
    rw [List.getD_eq_getElem _ _ (by simp; omega)]
    simp

theorem row_invariants (log1p : ℚ → ℚ) (data : List Interaction) (r : FeatureRow)
    (hr : r ∈ build_features log1p data) :
    1 ≤ r.skill_id ∧ (r.correct = 0 ∨ r.correct = 1) ∧ 1 ≤ r.interaction_feature := by
  rw [build_features_eq] at hr
  obtain ⟨i, _, rfl⟩ := List.mem_map.mp hr
  have hsid : (1 : ℤ) ≤ (mkFeatureRow log1p (sortByStartTime data) i).skill_id := by
    show (1 : ℤ) ≤ skillIdOf _ _
    unfold skillIdOf
    have : (0 : ℤ) ≤ (List.indexOf ((sortByStartTime data).getD i default).skill
        (skillsOf (sortByStartTime data)) : ℤ) := Int.natCast_nonneg _
    omega
  refine ⟨hsid, ?_, ?_⟩
  · show correctInt _ = 0 ∨ correctInt _ = 1
    cases ((sortByStartTime data).getD i default).correct <;> simp [correctInt]
  · have hn : (0 : ℤ) ≤ ((skillsOf (sortByStartTime data)).length : ℤ) := Int.natCast_nonneg _
    have hsid' : (1 : ℤ) ≤ skillIdRow (sortByStartTime data) ((sortByStartTime data).getD i default) := hsid
    show (1 : ℤ) ≤ skillIdRow (sortByStartTime data) ((sortByStartTime data).getD i default) +
      (1 - correctInt ((sortByStartTime data).getD i default).correct) *
        ((skillsOf (sortByStartTime data)).length : ℤ)
    cases hc : ((sortByStartTime data).getD i default).correct
    · rw [show correctInt false = 0 from rfl]
      linarith
    · rw [show correctInt true = 1 from rfl]
      linarith

/-- C10: in every packed sequence built from any feature table the
pipeline produces, every real categorical value is at least 1 (skill ids
start at 1 and `(1 - correct) * num_skills` is non-negative) and every real
target skill index `skill_id - 1` is at least 0; consequently, within the
padded window a position holds the categorical padding value 0, or the
target sentinel -1, exactly when it lies beyond the real data — padding
never collides with a real position. -/
theorem padding_distinguishable (log1p : ℚ → ℚ) (data : List Interaction) :
    (∀ s ∈ (sliceChunks (build_features log1p data) 100).Xcat,
      s.length ≤ 99 ∧ (∀ v ∈ s, 1 ≤ v) ∧
      (∀ k, k < 99 → ((padPost 99 0 s).getD k 0 = 0 ↔ s.length ≤ k))) ∧
    (∀ s ∈ (sliceChunks (build_features log1p data) 100).y,
      s.length ≤ 99 ∧ (∀ pr ∈ s, 0 ≤ pr.1) ∧
      (∀ k, k < 99 → (((padPost 99 (-1, -1) s).getD k (-1, -1)).1 = -1 ↔ s.length ≤ k))) := by
  constructor
  · intro s hs
    obtain ⟨i, _, rfl⟩ := List.mem_map.mp hs
    have hslen : ((((build_features log1p data).drop i).take 99).map
        (·.interaction_feature)).length ≤ 99 := by
      rw [List.length_map, List.length_take]
      exact min_le_left _ _
    have hval : ∀ v ∈ (((build_features log1p data).drop i).take 99).map
        (·.interaction_feature), (1 : ℤ) ≤ v := by
      intro v hv
      obtain ⟨r, hrmem, rfl⟩ := List.mem_map.mp hv
      exact (row_invariants log1p data r
        (List.mem_of_mem_drop (List.mem_of_mem_take hrmem))).2.2
    refine ⟨hslen, hval, ?_⟩
    intro k hk
    rw [padPost_getD 0 0 _ 99 k hslen hk]
    by_cases hks : k < ((((build_features log1p data).drop i).take 99).map
        (·.interaction_feature)).length
    · rw [if_pos hks]
      constructor
      · intro h0
        exfalso
        have hmem : ((((build_features log1p data).drop i).take 99).map
            (·.interaction_feature)).getD k 0 ∈
            (((build_features log1p data).drop i).take 99).map (·.interaction_feature) := by
          rw [List.getD_eq_getElem _ _ hks]
          exact List.getElem_mem hks
        have h1 := hval _ hmem
        omega
      · intro hcontra
        exact absurd hcontra (not_le.mpr hks)
    · rw [if_neg hks]
      exact ⟨fun _ => le_of_not_lt hks, fun _ => rfl⟩
  · intro s hs
    obtain ⟨i, _, rfl⟩ := List.mem_map.mp hs
    have hslen : ((((build_features log1p data).drop (i + 1)).take 99).map
        targetOf).length ≤ 99 := by
      rw [List.length_map, List.length_take]
      exact min_le_left _ _
    have hval : ∀ pr ∈ (((build_features log1p data).drop (i + 1)).take 99).map targetOf,
        (0 : ℤ) ≤ pr.1 := by
      intro pr hpr
      obtain ⟨r, hrmem, rfl⟩ := List.mem_map.mp hpr
      have := (row_invariants log1p data r
        (List.mem_of_mem_drop (List.mem_of_mem_take hrmem))).1
      show (0 : ℤ) ≤ r.skill_id - 1
      omega
    refine ⟨hslen, hval, ?_⟩
    intro k hk
    rw [padPost_getD (-1, -1) (-1, -1) _ 99 k hslen hk]
    by_cases hks : k < ((((build_features log1p data).drop (i + 1)).take 99).map targetOf).length
    · rw [if_pos hks]
      constructor
      · intro h0
        exfalso
        have hmem : ((((build_features log1p data).drop (i + 1)).take 99).map
            targetOf).getD k (-1, -1) ∈
            (((build_features log1p data).drop (i + 1)).take 99).map targetOf := by
          rw [List.getD_eq_getElem _ _ hks]
          exact List.getElem_mem hks
        have h1 := hval _ hmem
        omega
      · intro hcontra
        exact absurd hcontra (not_le.mpr hks)
    · rw [if_neg hks]
      exact ⟨fun _ => le_of_not_lt hks, fun _ => rfl⟩

/-- C10 witness: the concrete packed chunk `[3, 2]` of the `oneMissData`
table has all categorical values at least 1, and position 50 of its padded
form is 0 exactly because it lies beyond the 2 real entries. -/
theorem padding_distinguishable_witness :
    (1 : ℤ) ≤ 3 ∧ ((padPost 99 0 ([3, 2] : List ℤ)).getD 50 0 = 0 ↔ ([3, 2] : List ℤ).length ≤ 50) :=
  ⟨((padding_distinguishable id oneMissData).1 [3, 2] (by decide)).2.1 3 (by decide),
   ((padding_distinguishable id oneMissData).1 [3, 2] (by decide)).2.2 50 (by decide)⟩
